import Mathlib

/-!
A verification development for the img-parts core codecs: the JPEG
marker-delimited segment codec (src/jpeg/segment.rs) and the RIFF
length-prefixed chunk-tree codec (src/riff.rs).

Modelling conventions:
* byte buffers and streams are `List Nat` (each entry one byte);
* fallible operations return `Except`/`Option`; a dedicated `panic`
  value (or `none`) stands for a Rust panic, which is a distinct
  outcome from a returned error value;
* machine-integer overflow points are modelled explicitly: the
  `try_into().unwrap()` calls of the sources become `none`/panic
  outcomes when the value exceeds the target width, and arithmetic
  over/underflow of the fixed-width integer types is a panic outcome
  (its debug-build behaviour; it is a program error in both profiles).
-/

/- ## Marker classification (external collaborator of the segment codec) -/

namespace markers

/-- Modelled from the spec: the constant one-byte framing prefix written
before every marker. The marker classification table is an external
collaborator (spec section 6), not part of the sources under `src/`. -/
def P : Nat := 0xFF

/-- Modelled from the spec: the marker value used for color-profile
tagging (APP2). -/
def APP2 : Nat := 0xE2

/-- Modelled from the spec: the marker value used for image-metadata
tagging (APP1). -/
def APP1 : Nat := 0xE1

/-- Modelled from the spec: the marker carrying trailing entropy-coded
data (SOS, start of scan). -/
def SOS : Nat := 0xDA

/-- Modelled from the spec: the "requires a 2-byte length field" query of
the marker classification collaborator. The stand-alone markers (the
0x00 filler, TEM, RST0-RST7, SOI, EOI) carry no length field; all other
markers do. -/
def has_length (marker : Nat) : Bool :=
  if marker = 0x00 ∨ marker = 0x01 ∨ (0xD0 ≤ marker ∧ marker ≤ 0xD9) then false else true

/-- Modelled from the spec: the "carries trailing entropy data" query of
the marker classification collaborator; only SOS does. -/
def has_entropy (marker : Nat) : Bool :=
  if marker = SOS then true else false

end markers

/- ## Entropy payload (external collaborator of the segment codec) -/

/-- Modelled from the spec: the entropy payload collaborator. The spec
treats it as "an opaque byte-run ... that knows its own encoded length";
it is modelled by the byte run it encodes to. -/
structure Entropy where
  bytes : List Nat
deriving DecidableEq, Repr

/-- Modelled from the spec: `len(payload)` is the exact encoded byte
count, computed without I/O. -/
def Entropy.len (e : Entropy) : Nat := e.bytes.length

/-- Modelled from the spec: `write_to(payload, stream)` appends exactly
the payload's encoding. -/
def Entropy.write_to (e : Entropy) : List Nat := e.bytes

/-- Modelled from the spec: `read(stream)` is a self-delimiting
consumption; per spec section 4.1 the payload "is self-terminating or
consumes the remainder as defined by that collaborator" - modelled as
consuming the remainder of the stream. -/
def Entropy.read (r : List Nat) : Entropy × List Nat := (⟨r⟩, [])

/- ## JpegSegment (src/jpeg/segment.rs) -/

/-- `const ICC_DATA_PREFIX: &[u8] = b"ICC_PROFILE\0";` (the name is
shortened to `iccSig`). -/
def iccSig : List Nat :=
  [0x49, 0x43, 0x43, 0x5F, 0x50, 0x52, 0x4F, 0x46, 0x49, 0x4C, 0x45, 0x00]

/-- `struct JpegSegment { marker: u8, contents: Vec<u8>, entropy: Option<Entropy> }` -/
structure JpegSegment where
  marker : Nat
  contents : List Nat
  entropy : Option Entropy
deriving DecidableEq, Repr

/-- Failure outcomes of the segment reader: a propagated I/O error from a
fixed-width read hitting the end of the stream, or a Rust panic. -/
inductive JpegError where
  | eof
  | panic
deriving DecidableEq, Repr

/-- `JpegSegment::new` -/
def JpegSegment.new (marker : Nat) : JpegSegment :=
  ⟨marker, [], none⟩

/-- `JpegSegment::new_with_contents` -/
def JpegSegment.new_with_contents (marker : Nat) (contents : List Nat) : JpegSegment :=
  ⟨marker, contents, none⟩

/-- `JpegSegment::new_with_entropy` -/
def JpegSegment.new_with_entropy (marker : Nat) (contents : List Nat) (entropy : Entropy) :
    JpegSegment :=
  ⟨marker, contents, some entropy⟩

/-- `JpegSegment::new_icc`: contents = ICC signature, seqno byte, count
byte, then the profile bytes. -/
def JpegSegment.new_icc (seqno num : Nat) (buf : List Nat) : JpegSegment :=
  JpegSegment.new_with_contents markers.APP2 (iccSig ++ [seqno, num] ++ buf)

/-- `JpegSegment::read(marker, r)`:
`let size = r.read_u16::<BigEndian>()? - 2;` then
`r.take(size as u64).read_to_end(&mut contents)?;` (which reads *up to*
`size` bytes, succeeding even when fewer remain), then reads the entropy
payload iff `has_entropy(marker)`. The `- 2` underflows (panics) when
the length field holds 0 or 1. The length classification is never
consulted. -/
def JpegSegment.read (marker : Nat) (r : List Nat) :
    Except JpegError (JpegSegment × List Nat) :=
  match r with
  | b0 :: b1 :: rest =>
    if b0 * 256 + b1 < 2 then .error .panic
    else
      let size := b0 * 256 + b1 - 2
      let contents := rest.take size
      let r1 := rest.drop size
      if !markers.has_entropy marker then
        .ok (JpegSegment.new_with_contents marker contents, r1)
      else
        let er := Entropy.read r1
        .ok (JpegSegment.new_with_entropy marker contents er.1, er.2)
  | _ => .error .eof

/-- `JpegSegment::len`: 2 (marker framing) + 2 (length field, only when
the marker is classified as having one) + content length, entropy
excluded. -/
def JpegSegment.len (s : JpegSegment) : Nat :=
  if markers.has_length s.marker then 2 + 2 + s.contents.length
  else 2 + s.contents.length

/-- `JpegSegment::len_with_entropy`: `len()` plus the encoded entropy
length (0 when absent). -/
def JpegSegment.len_with_entropy (s : JpegSegment) : Nat :=
  s.len + (match s.entropy with | some e => e.len | none => 0)

/-- `JpegSegment::icc`: `Some((seqno, num, profile))` iff the marker is
APP2, the first 12 content bytes equal the ICC signature, and offsets
12, 13 and the range from 14 exist; `None` otherwise (the `?` early
returns on `get`, so it never panics). -/
def JpegSegment.icc (s : JpegSegment) : Option (Nat × Nat × List Nat) :=
  if s.marker = markers.APP2 ∧ 12 ≤ s.contents.length ∧ s.contents.take 12 = iccSig then
    match s.contents.get? 12, s.contents.get? 13 with
    | some seqno, some num =>
      if 14 ≤ s.contents.length then some (seqno, num, s.contents.drop 14) else none
    | _, _ => none
  else none

/-- `JpegSegment::write_to`: framing prefix byte, marker byte, then -
unconditionally - the 2-byte big-endian length field
`(self.len() - 2).try_into().unwrap()` (`none` models the unwrap panic
when the value exceeds `u16`), then the contents, then the entropy
encoding when present. -/
def JpegSegment.write_to (s : JpegSegment) : Option (List Nat) :=
  let lenField := s.len - 2
  if lenField ≤ 0xFFFF then
    some ([markers.P, s.marker] ++ [lenField / 256, lenField % 256] ++ s.contents
      ++ (match s.entropy with | some e => e.write_to | none => []))
  else none

/- ## RiffChunk (src/riff.rs) -/

/-- A four-byte tag (`[u8; 4]`). -/
structure FourCC where
  b0 : Nat
  b1 : Nat
  b2 : Nat
  b3 : Nat
deriving DecidableEq, Repr

/-- The bytes of a four-byte tag, in stream order. -/
def FourCC.bytes (c : FourCC) : List Nat := [c.b0, c.b1, c.b2, c.b3]

/-- `*b"RIFF"` -/
def riffId : FourCC := ⟨0x52, 0x49, 0x46, 0x46⟩

/-- `*b"LIST"` -/
def listId : FourCC := ⟨0x4C, 0x49, 0x53, 0x54⟩

/-- `*b"seqt"` -/
def seqtId : FourCC := ⟨0x73, 0x65, 0x71, 0x74⟩

/-- `fn has_subchunks(id: [u8; 4]) -> bool`: RIFF, LIST and seqt are the
container tags. -/
def has_subchunks (id : FourCC) : Bool :=
  if id = riffId ∨ id = listId ∨ id = seqtId then true else false

/-- `fn has_kind(id: [u8; 4]) -> bool`: RIFF and LIST carry a leading
kind tag. -/
def has_kind (id : FourCC) : Bool :=
  if id = riffId ∨ id = listId then true else false

mutual
/-- `struct RiffChunk { id: [u8; 4], content: RiffContent }` -/
inductive RiffChunk where
  | mk (id : FourCC) (content : RiffContent)

/-- `enum RiffContent { List { kind, subchunks }, Data(Bytes) }` -/
inductive RiffContent where
  | list (kind : Option FourCC) (subchunks : List RiffChunk)
  | data (d : List Nat)
end

/-- The id of a `RiffChunk` (`RiffChunk::id`). -/
def RiffChunk.id : RiffChunk → FourCC
  | ⟨i, _⟩ => i

/-- The content of a `RiffChunk` (`RiffChunk::content`). -/
def RiffChunk.content : RiffChunk → RiffContent
  | ⟨_, c⟩ => c

/-- Failure outcomes of the chunk decoder: the malformed-root error
(`Error::NoRiffHeader`, the only error value `riff.rs` constructs) or a
Rust panic (the `bytes::Bytes` cursor operations panic when fewer bytes
remain than they demand). -/
inductive RiffError where
  | noRiffHeader
  | panic
deriving DecidableEq, Repr

/-- Value of a 4-byte little-endian length field (`get_u32_le`). -/
def u32le (l0 l1 l2 l3 : Nat) : Nat :=
  l0 + 256 * l1 + 65536 * l2 + 16777216 * l3

/-- The 4 little-endian bytes written for a `u32` value (`write_u32`). -/
def u32leBytes (n : Nat) : List Nat :=
  [n % 256, n / 256 % 256, n / 65536 % 256, n / 16777216 % 256]

/-- One step of `RiffChunk::from_bytes_impl(b, check_riff_id)` plus the
`RiffContent::from_bytes(b, id)` it calls, parameterised by the
recursive subchunk parser `recMany` (the `while !content.is_empty()`
loop). Faithful order of operations: read the 4-byte id (panic when
fewer than 4 bytes remain), the root-id check, read the 4-byte
little-endian length, carve exactly `len` content bytes (panic when
fewer remain), then either split the kind / parse subchunks (container
tags) or take the content verbatim as data and skip the odd-length
padding byte in the outer buffer (panic when it is absent). -/
def chunkStep (recMany : List Nat → Except RiffError (List RiffChunk))
    (b : List Nat) (check : Bool) : Except RiffError (RiffChunk × List Nat) :=
  match b with
  | i0 :: i1 :: i2 :: i3 :: b1 =>
    let id : FourCC := ⟨i0, i1, i2, i3⟩
    if check = true ∧ id ≠ riffId then .error .noRiffHeader
    else
      match b1 with
      | l0 :: l1 :: l2 :: l3 :: b2 =>
        let len := u32le l0 l1 l2 l3
        if len ≤ b2.length then
          let content := b2.take len
          let after := b2.drop len
          if has_subchunks id then
            if has_kind id then
              match content with
              | k0 :: k1 :: k2 :: k3 :: content1 =>
                match recMany content1 with
                | .error e => .error e
                | .ok subs => .ok (⟨id, .list (some ⟨k0, k1, k2, k3⟩) subs⟩, after)
              | _ => .error .panic
            else
              match recMany content with
              | .error e => .error e
              | .ok subs => .ok (⟨id, .list none subs⟩, after)
          else
            if len % 2 ≤ after.length then
              .ok (⟨id, .data content⟩, after.drop (len % 2))
            else .error .panic
        else .error .panic
      | _ => .error .panic
  | _ => .error .panic

/-- The `while !content.is_empty()` subchunk loop of
`RiffContent::from_bytes`, with a fuel argument making the recursion
structural; fuel at least `2 * length + 2` always suffices (each parsed
chunk consumes at least 8 bytes), and every caller supplies at least
that much, so the out-of-fuel outcome is never reached. -/
def parseMany : Nat → List Nat → Except RiffError (List RiffChunk)
  | 0, _ => .error .panic
  | fuel + 1, m =>
    if m = [] then .ok []
    else
      match chunkStep (parseMany fuel) m false with
      | .error e => .error e
      | .ok (c, rest) =>
        match parseMany fuel rest with
        | .error e => .error e
        | .ok cs => .ok (c :: cs)

/-- `RiffChunk::from_bytes_impl(b, check_riff_id)`, returning the parsed
chunk and the unconsumed remainder of the buffer. -/
def RiffChunk.from_bytes_impl (b : List Nat) (check : Bool) :
    Except RiffError (RiffChunk × List Nat) :=
  chunkStep (fun m => parseMany (2 * m.length + 2) m) b check

/-- `RiffChunk::from_bytes(b)`: the caller-facing entry point, which
requires the root id to be "RIFF". -/
def RiffChunk.from_bytes (b : List Nat) : Except RiffError RiffChunk :=
  match RiffChunk.from_bytes_impl b true with
  | .error e => .error e
  | .ok (c, _) => .ok c

mutual
/-- `RiffContent::len`: for `Data`,
`data.len().try_into().unwrap()` (`none` models the panic when the
length exceeds `u32`); for `List`, 4 when a kind is present plus the sum
of the subchunks' `len()`s, every `u32` addition checked (overflow is a
panic). -/
def RiffContent.len : RiffContent → Option Nat
  | .data d => if d.length < 2 ^ 32 then some d.length else none
  | .list kind subs =>
    match riffSumLens subs 0 with
    | none => none
    | some s =>
      let base := if kind.isSome then 4 else 0
      if base + s < 2 ^ 32 then some (base + s) else none

/-- `RiffChunk::len`: `4 + 4 + content.len()`, then
`len += len % 2` (the odd-length padding byte), both `u32` additions
checked. -/
def RiffChunk.len : RiffChunk → Option Nat
  | ⟨_, content⟩ =>
    match RiffContent.len content with
    | none => none
    | some cl =>
      if 4 + 4 + cl < 2 ^ 32 then
        let l := 4 + 4 + cl
        if l + l % 2 < 2 ^ 32 then some (l + l % 2) else none
      else none

/-- `subchunks.iter().map(|subchunk| subchunk.len()).sum::<u32>()`:
a left fold with every partial `u32` sum checked. -/
def riffSumLens : List RiffChunk → Nat → Option Nat
  | [], acc => some acc
  | c :: cs, acc =>
    match RiffChunk.len c with
    | none => none
    | some n => if acc + n < 2 ^ 32 then riffSumLens cs (acc + n) else none
end

mutual
/-- `RiffContent::write_to`: for `List`, the kind tag when present
followed by each subchunk's encoding in order; for `Data`, the raw bytes
followed by one `0x00` padding byte iff the byte count is odd. -/
def RiffContent.write_to : RiffContent → Option (List Nat)
  | .list kind subs =>
    match riffWriteSubs subs with
    | none => none
    | some parts =>
      some ((match kind with | some k => k.bytes | none => []) ++ parts)
  | .data d => some (d ++ (if d.length % 2 ≠ 0 then [0] else []))

/-- `RiffChunk::write_to`: the 4-byte id, the 4-byte little-endian
length field `self.content.len()` (whose computation can panic, modelled
by `none`), then the content encoding. -/
def RiffChunk.write_to : RiffChunk → Option (List Nat)
  | ⟨id, content⟩ =>
    match RiffContent.len content with
    | none => none
    | some cl =>
      match RiffContent.write_to content with
      | none => none
      | some body => some (id.bytes ++ u32leBytes cl ++ body)

/-- The concatenated encodings of a chunk sequence
(`for chunk in subchunks { chunk.write_to(w)?; }`). -/
def riffWriteSubs : List RiffChunk → Option (List Nat)
  | [] => some []
  | c :: cs =>
    match RiffChunk.write_to c with
    | none => none
    | some e =>
      match riffWriteSubs cs with
      | none => none
      | some es => some (e ++ es)
end

/-- `RiffContent::list` accessor: kind and subchunks for a `List`,
`None` for `Data`. -/
def RiffContent.list? : RiffContent → Option (Option FourCC × List RiffChunk)
  | .list kind subs => some (kind, subs)
  | .data _ => none

/-- `RiffContent::data` accessor: the bytes for `Data`, `None` for a
`List`. -/
def RiffContent.data? : RiffContent → Option (List Nat)
  | .list _ _ => none
  | .data d => some d

/-- The number of padding bytes the content encoder appends after a
content encoding: 1 for odd-length data, 0 otherwise (list content is
never padded). -/
def riffPad : RiffContent → Nat
  | .data d => d.length % 2
  | .list _ _ => 0

/-- Classification consistency of a chunk tree: data nodes carry
non-container ids, list nodes carry container ids and a kind exactly for
kind-bearing ids, recursively. Every decoded chunk satisfies this, and
it is what the decoder needs in order to re-read an encoded chunk. -/
inductive WFChunk : RiffChunk → Prop where
  | data : ∀ (id : FourCC) (d : List Nat), has_subchunks id = false →
      WFChunk ⟨id, .data d⟩
  | list : ∀ (id : FourCC) (kind : Option FourCC) (subs : List RiffChunk),
      has_subchunks id = true → kind.isSome = has_kind id →
      (∀ c ∈ subs, WFChunk c) → WFChunk ⟨id, .list kind subs⟩

/- ## Helper lemmas -/

theorem u32le_of_bytes (n : Nat) (h : n < 2 ^ 32) :
    u32le (n % 256) (n / 256 % 256) (n / 65536 % 256) (n / 16777216 % 256) = n := by
  unfold u32le; omega

theorem riffContentLen_lt (ct : RiffContent) (cl : Nat)
    (h : RiffContent.len ct = some cl) : cl < 2 ^ 32 := by
  cases ct with
  | data d =>
    unfold RiffContent.len at h
    split at h
    · simp only [Option.some.injEq] at h; omega
    · exact absurd h (by simp)
  | list kind subs =>
    unfold RiffContent.len at h
    rcases hs : riffSumLens subs 0 with _ | s <;> rw [hs] at h
    · exact absurd h (by simp)
    · simp only [] at h
      split at h <;> split at h
      all_goals first
        | (simp only [Option.some.injEq] at h; omega)
        | exact absurd h (by simp)

theorem riffChunkLen_even (c : RiffChunk) (n : Nat)
    (h : RiffChunk.len c = some n) : n % 2 = 0 := by
  obtain ⟨id, ct⟩ := c
  unfold RiffChunk.len at h
  rcases hc : RiffContent.len ct with _ | cl <;> rw [hc] at h
  · exact absurd h (by simp)
  · simp only [] at h
    split at h
    · split at h
      · simp only [Option.some.injEq] at h; omega
      · exact absurd h (by simp)
    · exact absurd h (by simp)

theorem riffSumLens_even : ∀ (cs : List RiffChunk) (acc r : Nat),
    riffSumLens cs acc = some r → acc % 2 = 0 → r % 2 = 0
  | [], acc, r, h, ha => by
    unfold riffSumLens at h
    simp only [Option.some.injEq] at h
    omega
  | c :: cs, acc, r, h, ha => by
    unfold riffSumLens at h
    rcases hc : RiffChunk.len c with _ | n <;> rw [hc] at h
    · exact absurd h (by simp)
    · simp only [] at h
      split at h
      · exact riffSumLens_even cs (acc + n) r h
          (by have := riffChunkLen_even c n hc; omega)
      · exact absurd h (by simp)

theorem riffContentLen_list_even (kind : Option FourCC) (subs : List RiffChunk) (cl : Nat)
    (h : RiffContent.len (.list kind subs) = some cl) : cl % 2 = 0 := by
  unfold RiffContent.len at h
  rcases hs : riffSumLens subs 0 with _ | s <;> rw [hs] at h
  · exact absurd h (by simp)
  · have hse : s % 2 = 0 := riffSumLens_even subs 0 s hs (by omega)
    simp only [] at h
    split at h <;> split at h
    all_goals first
      | (simp only [Option.some.injEq] at h; omega)
      | exact absurd h (by simp)

mutual

theorem riffChunk_write_len : ∀ (c : RiffChunk) (n : Nat), RiffChunk.len c = some n →
    ∃ bs, RiffChunk.write_to c = some bs ∧ bs.length = n
  | ⟨id, ct⟩, n, h => by
    unfold RiffChunk.len at h
    rcases hc : RiffContent.len ct with _ | cl <;> rw [hc] at h
    · exact absurd h (by simp)
    · simp only [] at h
      split at h
      · split at h
        · simp only [Option.some.injEq] at h
          obtain ⟨body, hb, hlen, hpad⟩ := riffContent_write_len ct cl hc
          refine ⟨FourCC.bytes id ++ u32leBytes cl ++ body, ?_, ?_⟩
          · unfold RiffChunk.write_to
            rw [hc, hb]
          · simp only [List.length_append, FourCC.bytes, u32leBytes,
              List.length_cons, List.length_nil]
            omega
        · exact absurd h (by simp)
      · exact absurd h (by simp)

theorem riffContent_write_len : ∀ (ct : RiffContent) (cl : Nat),
    RiffContent.len ct = some cl →
    ∃ body, RiffContent.write_to ct = some body ∧
      body.length = cl + riffPad ct ∧ cl % 2 = riffPad ct
  | .data d, cl, h => by
    unfold RiffContent.len at h
    split at h
    · simp only [Option.some.injEq] at h
      subst h
      refine ⟨_, rfl, ?_, ?_⟩
      · simp only [riffPad, List.length_append]
        split
        · simp only [List.length_cons, List.length_nil]
          omega
        · simp only [List.length_nil]
          omega
      · simp only [riffPad]
    · exact absurd h (by simp)
  | .list kind subs, cl, h => by
    have heven : cl % 2 = 0 := riffContentLen_list_even kind subs cl h
    unfold RiffContent.len at h
    rcases hs : riffSumLens subs 0 with _ | s <;> rw [hs] at h
    · exact absurd h (by simp)
    · obtain ⟨parts, hp, hplen⟩ := riffSubs_write_len subs 0 s hs
      simp only [] at h
      cases kind with
      | some k =>
        have hbody : RiffContent.write_to (.list (some k) subs) =
            some (FourCC.bytes k ++ parts) := by
          simp only [RiffContent.write_to]
          rw [hp]
        simp only [Option.isSome_some, if_true] at h
        split at h
        · simp only [Option.some.injEq] at h
          refine ⟨_, hbody, ?_, ?_⟩
          · simp only [riffPad, List.length_append, FourCC.bytes, List.length_cons,
              List.length_nil]
            omega
          · simpa [riffPad] using heven
        · exact absurd h (by simp)
      | none =>
        have hbody : RiffContent.write_to (.list none subs) = some ([] ++ parts) := by
          simp only [RiffContent.write_to]
          rw [hp]
        simp only [Option.isSome_none, Bool.false_eq_true, if_false] at h
        split at h
        · simp only [Option.some.injEq] at h
          refine ⟨_, hbody, ?_, ?_⟩
          · simp only [riffPad, List.length_append, List.length_nil]
            omega
          · simpa [riffPad] using heven
        · exact absurd h (by simp)

theorem riffSubs_write_len : ∀ (cs : List RiffChunk) (acc r : Nat),
    riffSumLens cs acc = some r →
    ∃ parts, riffWriteSubs cs = some parts ∧ acc + parts.length = r
  | [], acc, r, h => by
    unfold riffSumLens at h
    simp only [Option.some.injEq] at h
    exact ⟨[], rfl, by simpa using h⟩
  | c :: cs, acc, r, h => by
    unfold riffSumLens at h
    rcases hc : RiffChunk.len c with _ | n <;> rw [hc] at h
    · exact absurd h (by simp)
    · simp only [] at h
      split at h
      · obtain ⟨e, he, helen⟩ := riffChunk_write_len c n hc
        obtain ⟨es, hes, heslen⟩ := riffSubs_write_len cs (acc + n) r h
        refine ⟨e ++ es, ?_, ?_⟩
        · unfold riffWriteSubs
          rw [he, hes]
        · simp only [List.length_append]
          omega
      · exact absurd h (by simp)

end

theorem riffChunk_write_unfold (id : FourCC) (ct : RiffContent) (e : List Nat)
    (h : RiffChunk.write_to ⟨id, ct⟩ = some e) :
    ∃ cl body, RiffContent.len ct = some cl ∧ RiffContent.write_to ct = some body ∧
      e = FourCC.bytes id ++ u32leBytes cl ++ body := by
  simp only [RiffChunk.write_to] at h
  rcases hc : RiffContent.len ct with _ | cl <;> rw [hc] at h
  · simp at h
  · rcases hb : RiffContent.write_to ct with _ | body <;> rw [hb] at h
    · simp at h
    · simp only [Option.some.injEq] at h
      exact ⟨cl, body, rfl, rfl, h.symm⟩

theorem riffChunk_write_ge (c : RiffChunk) (e : List Nat)
    (h : RiffChunk.write_to c = some e) : 8 ≤ e.length := by
  obtain ⟨id, ct⟩ := c
  obtain ⟨cl, body, _, _, he⟩ := riffChunk_write_unfold id ct e h
  subst he
  simp [FourCC.bytes, u32leBytes]

/- ## Claim C1 -/

/-- C1 counterexample: EOI (0xD9) is classified as not requiring a length
field, yet `JpegSegment::read` still reads a 2-byte length field and
consumes 2 content bytes from the stream - it does not consult the
classification and does not leave the stream untouched as the claim
demands. -/
theorem c1_counterexample :
    markers.has_length 0xD9 = false ∧
    JpegSegment.read 0xD9 [0, 4, 171, 205] = .ok (⟨0xD9, [171, 205], none⟩, []) ∧
    JpegSegment.read 0xD9 [0, 4, 171, 205] ≠ .ok (⟨0xD9, [], none⟩, [0, 4, 171, 205]) := by
  refine ⟨by decide, rfl, ?_⟩
  intro h
  rw [show JpegSegment.read 0xD9 [0, 4, 171, 205] =
    .ok (⟨0xD9, [171, 205], none⟩, []) from rfl] at h
  simp at h

/-- C1 (amended): `JpegSegment::read` never consults the length
classification: for any marker - in particular one classified as not
requiring a length field - it reads the 2-byte big-endian length field
and consumes `field - 2` content bytes unconditionally (stated here for
non-entropy markers and a non-underflowing field). -/
theorem c1_read_ignores_length_classification (m b0 b1 : Nat) (rest : List Nat)
    (hfield : 2 ≤ b0 * 256 + b1)
    (_hlen : markers.has_length m = false)
    (hent : markers.has_entropy m = false) :
    JpegSegment.read m (b0 :: b1 :: rest) =
      .ok (⟨m, rest.take (b0 * 256 + b1 - 2), none⟩, rest.drop (b0 * 256 + b1 - 2)) := by
  simp only [JpegSegment.read]
  rw [if_neg (by omega)]
  simp [hent, JpegSegment.new_with_contents]

/-- C1 witness: the amended theorem applied at marker EOI and the stream
`[0, 4, 171, 205]`. -/
theorem c1_witness :
    2 ≤ 0 * 256 + 4 ∧ markers.has_length 0xD9 = false ∧
    markers.has_entropy 0xD9 = false ∧
    JpegSegment.read 0xD9 [0, 4, 171, 205] =
      .ok (⟨0xD9, [171, 205].take (0 * 256 + 4 - 2), none⟩,
           [171, 205].drop (0 * 256 + 4 - 2)) :=
  ⟨by decide, by decide, by decide,
    c1_read_ignores_length_classification 0xD9 0 4 [171, 205]
      (by decide) (by decide) (by decide)⟩

/- ## Claim C2 -/

/-- C2 counterexample: the length field claims 3 content bytes but only 1
remains; `JpegSegment::read` succeeds with the short content buffer
`[170]` instead of returning a truncated-input error. -/
theorem c2_counterexample :
    JpegSegment.read 0xC0 [0, 5, 170] = .ok (⟨0xC0, [170], none⟩, []) ∧
    (JpegSegment.read 0xC0 [0, 5, 170]).isOk = true := by
  exact ⟨rfl, rfl⟩

/-- C2 (amended): `JpegSegment::read` fails with the propagated
end-of-stream error only when fewer than 2 bytes remain for the length
field itself; when the decoded length field demands more content bytes
than remain, it does NOT fail: it succeeds, returning exactly the bytes
that do remain (the `take(size).read_to_end` combination tolerates
truncation). Stated for non-entropy markers and a non-underflowing
field. -/
theorem c2_truncated_content_succeeds :
    (∀ (m : Nat) (b : List Nat), b.length ≤ 1 →
      JpegSegment.read m b = .error .eof) ∧
    (∀ (m b0 b1 : Nat) (rest : List Nat), 2 ≤ b0 * 256 + b1 →
      rest.length < b0 * 256 + b1 - 2 → markers.has_entropy m = false →
      JpegSegment.read m (b0 :: b1 :: rest) = .ok (⟨m, rest, none⟩, [])) := by
  constructor
  · intro m b hb
    match b with
    | [] => rfl
    | [x] => rfl
    | x :: y :: rest => simp at hb
  · intro m b0 b1 rest hfield hshort hent
    simp only [JpegSegment.read]
    rw [if_neg (by omega)]
    simp [hent, JpegSegment.new_with_contents,
      List.take_of_length_le (by omega : rest.length ≤ b0 * 256 + b1 - 2),
      List.drop_eq_nil_of_le (by omega : rest.length ≤ b0 * 256 + b1 - 2)]

/-- C2 witness: the amended theorem applied at a 1-byte stream and at the
stream `[0, 5, 170]` whose length field demands 3 content bytes. -/
theorem c2_witness :
    JpegSegment.read 0xC0 [171] = .error .eof ∧
    (2 ≤ 0 * 256 + 5 ∧ ([170] : List Nat).length < 0 * 256 + 5 - 2 ∧
      markers.has_entropy 0xC0 = false ∧
      JpegSegment.read 0xC0 [0, 5, 170] = .ok (⟨0xC0, [170], none⟩, [])) :=
  ⟨c2_truncated_content_succeeds.1 0xC0 [171] (by decide),
   by decide, by decide, by decide,
   c2_truncated_content_succeeds.2 0xC0 0 5 [170] (by decide) (by decide) (by decide)⟩

/- ## Claim C5 -/

/-- C5 counterexample: for the no-length-field marker EOI with empty
contents, `write_to` emits 4 bytes (it writes the length field
unconditionally) while `len_with_entropy()` is 2. -/
theorem c5_counterexample :
    JpegSegment.write_to ⟨0xD9, [], none⟩ = some [255, 217, 0, 0] ∧
    JpegSegment.len_with_entropy ⟨0xD9, [], none⟩ = 2 ∧
    ([255, 217, 0, 0] : List Nat).length ≠ 2 := by
  refine ⟨by decide, by decide, by decide⟩

/-- C5 (amended): the number of bytes `write_to` emits equals
`len_with_entropy()` plus 2 extra bytes exactly when the marker is
classified as not requiring a length field (because `write_to` writes
the 2-byte length field unconditionally while `len()` counts it only for
length-bearing markers); for length-bearing markers the two agree
exactly. `len_with_entropy()` always equals `len()` plus the encoded
entropy length. -/
theorem c5_len_vs_write (s : JpegSegment) (bs : List Nat)
    (h : JpegSegment.write_to s = some bs) :
    bs.length = s.len_with_entropy + (if markers.has_length s.marker then 0 else 2) ∧
    s.len_with_entropy = s.len + (match s.entropy with | some e => e.len | none => 0) := by
  refine ⟨?_, rfl⟩
  unfold JpegSegment.write_to at h
  simp only [] at h
  split at h
  · simp only [Option.some.injEq] at h
    subst h
    unfold JpegSegment.len_with_entropy JpegSegment.len Entropy.len Entropy.write_to
    cases he : s.entropy <;>
      by_cases hl : markers.has_length s.marker <;>
        simp [he, hl] <;> omega
  · exact absurd h (by simp)

/-- C5 witness: the amended theorem applied to an APP0 segment with one
content byte: 5 bytes are written and `len_with_entropy` is 5. -/
theorem c5_witness :
    JpegSegment.write_to ⟨0xE0, [7], none⟩ = some [255, 224, 0, 3, 7] ∧
    ([255, 224, 0, 3, 7] : List Nat).length =
      JpegSegment.len_with_entropy ⟨0xE0, [7], none⟩ +
        (if markers.has_length (JpegSegment.marker ⟨0xE0, [7], none⟩) then 0 else 2) :=
  ⟨by decide, (c5_len_vs_write ⟨0xE0, [7], none⟩ [255, 224, 0, 3, 7] (by decide)).1⟩

/- ## Claim C10 -/

/-- C10: every `RiffChunk::len()` value is even (the `len += len % 2`
padding rounding), and consequently the content length of every `List`
(an optional 4-byte kind plus a sum of even chunk lengths) is even, so a
list never needs a padding byte of its own. -/
theorem c10_len_always_even :
    (∀ (c : RiffChunk) (n : Nat), RiffChunk.len c = some n → n % 2 = 0) ∧
    (∀ (kind : Option FourCC) (subs : List RiffChunk) (m : Nat),
      RiffContent.len (.list kind subs) = some m → m % 2 = 0) :=
  ⟨riffChunkLen_even, riffContentLen_list_even⟩

/-- C10 witness: the chunk holding the single data byte `[1]` has even
total length 10, and the list content made of one such chunk plus a kind
has even content length 14. -/
theorem c10_witness :
    RiffChunk.len ⟨seqtId, .data [1]⟩ = some 10 ∧ 10 % 2 = 0 ∧
    RiffContent.len (.list (some riffId) [⟨seqtId, .data [1]⟩]) = some 14 ∧ 14 % 2 = 0 := by
  have h1 : RiffChunk.len ⟨seqtId, .data [1]⟩ = some 10 := by
    simp [RiffChunk.len, RiffContent.len]
  have h2 : RiffContent.len (.list (some riffId) [⟨seqtId, .data [1]⟩]) = some 14 := by
    simp [RiffContent.len, riffSumLens, h1]
  exact ⟨h1, c10_len_always_even.1 _ 10 h1, h2,
    c10_len_always_even.2 (some riffId) [⟨seqtId, .data [1]⟩] 14 h2⟩

/- ## Claim C7 -/

/-- C7: whenever `RiffChunk::len()` computes a size (no `u32` overflow),
`write_to` succeeds and emits exactly that many bytes - including the
trailing padding byte when one is written - and the size equals
4 (id) + 4 (length field) + content length, rounded up to the next even
number. -/
theorem c7_len_matches_write_exactly :
    (∀ (c : RiffChunk) (n : Nat), RiffChunk.len c = some n →
      ∃ bs, RiffChunk.write_to c = some bs ∧ bs.length = n) ∧
    (∀ (id : FourCC) (ct : RiffContent) (cl n : Nat),
      RiffContent.len ct = some cl → RiffChunk.len ⟨id, ct⟩ = some n →
      n = 4 + 4 + cl + (4 + 4 + cl) % 2) := by
  refine ⟨riffChunk_write_len, ?_⟩
  intro id ct cl n hcl hn
  unfold RiffChunk.len at hn
  rw [hcl] at hn
  simp only [] at hn
  split at hn
  · split at hn
    · simp only [Option.some.injEq] at hn
      omega
    · exact absurd hn (by simp)
  · exact absurd hn (by simp)

/-- C7 witness: the data chunk `("abcd", [9])` has `len() = some 10` and
`write_to` emits exactly 10 bytes (9 of payload meaning 4 id + 4 length
+ 1 data + 1 pad). -/
theorem c7_witness :
    RiffChunk.len ⟨⟨97, 98, 99, 100⟩, .data [9]⟩ = some 10 ∧
    (∃ bs, RiffChunk.write_to ⟨⟨97, 98, 99, 100⟩, .data [9]⟩ = some bs ∧
      bs.length = 10) := by
  have h : RiffChunk.len ⟨⟨97, 98, 99, 100⟩, .data [9]⟩ = some 10 := by
    simp [RiffChunk.len, RiffContent.len]
  exact ⟨h, c7_len_matches_write_exactly.1 _ 10 h⟩

/- ## Claim C9 -/

/-- C9: encoding a `Data` chunk of odd byte length emits exactly one 0x00
byte immediately after the data bytes and the 4-byte length field
excludes that pad (it encodes the unpadded `d.length`); for even length
no extra byte is emitted. Within a list, a sibling's encoding follows
immediately after the pad byte. -/
theorem c9_odd_data_padding (id : FourCC) (d : List Nat) (hlt : d.length < 2 ^ 32) :
    (d.length % 2 = 1 →
      RiffChunk.write_to ⟨id, .data d⟩ =
        some (FourCC.bytes id ++ u32leBytes d.length ++ (d ++ [0]))) ∧
    (d.length % 2 = 0 →
      RiffChunk.write_to ⟨id, .data d⟩ =
        some (FourCC.bytes id ++ u32leBytes d.length ++ d)) ∧
    (∀ (cs : List RiffChunk) (parts : List Nat), d.length % 2 = 1 →
      riffWriteSubs cs = some parts →
      riffWriteSubs (⟨id, .data d⟩ :: cs) =
        some ((FourCC.bytes id ++ u32leBytes d.length ++ (d ++ [0])) ++ parts)) := by
  have hwrite : ∀ hodd : d.length % 2 = 1,
      RiffChunk.write_to ⟨id, .data d⟩ =
        some (FourCC.bytes id ++ u32leBytes d.length ++ (d ++ [0])) := by
    intro hodd
    simp only [RiffChunk.write_to, RiffContent.len, RiffContent.write_to]
    rw [if_pos hlt, if_pos (by omega : d.length % 2 ≠ 0)]
  refine ⟨hwrite, ?_, ?_⟩
  · intro heven
    simp only [RiffChunk.write_to, RiffContent.len, RiffContent.write_to]
    rw [if_pos hlt, if_neg (by omega : ¬d.length % 2 ≠ 0)]
    simp
  · intro cs parts hodd hp
    simp only [riffWriteSubs]
    rw [hwrite hodd, hp]

/-- C9 witness: the odd chunk `("abcd", [9])` encodes with a single
trailing zero after the data and length field 1; the even chunk
`("abcd", [9, 9])` encodes with no pad and length field 2. -/
theorem c9_witness :
    (([9] : List Nat).length % 2 = 1 →
      RiffChunk.write_to ⟨⟨97, 98, 99, 100⟩, .data [9]⟩ =
        some (FourCC.bytes ⟨97, 98, 99, 100⟩ ++ u32leBytes ([9] : List Nat).length
          ++ ([9] ++ [0]))) ∧
    (([9, 9] : List Nat).length % 2 = 0 →
      RiffChunk.write_to ⟨⟨97, 98, 99, 100⟩, .data [9, 9]⟩ =
        some (FourCC.bytes ⟨97, 98, 99, 100⟩ ++ u32leBytes ([9, 9] : List Nat).length
          ++ [9, 9])) :=
  ⟨(c9_odd_data_padding ⟨97, 98, 99, 100⟩ [9] (by norm_num)).1,
   (c9_odd_data_padding ⟨97, 98, 99, 100⟩ [9, 9] (by norm_num)).2.1⟩

/- ## Claim C4 -/

theorem jpegWrite_overflow (s : JpegSegment)
    (hl : markers.has_length s.marker = true)
    (hover : 65535 < s.contents.length + 2) : JpegSegment.write_to s = none := by
  have hlen : s.len = 2 + 2 + s.contents.length := by
    unfold JpegSegment.len
    rw [if_pos hl]
  unfold JpegSegment.write_to
  simp only []
  rw [if_neg (by omega)]

theorem riffDataLen_overflow (d : List Nat) (hd : 2 ^ 32 ≤ d.length) :
    RiffContent.len (.data d) = none := by
  unfold RiffContent.len
  rw [if_neg (by omega)]

/-- C4 counterexample: a length-bearing segment whose content length + 2
exceeds the 2-byte field panics (`try_into().unwrap()`, modelled by
`none`) inside `write_to` - no error value is returned to the caller -
and `RiffContent::len` likewise panics on a `Data` buffer exceeding the
4-byte field's range. -/
theorem c4_counterexample :
    JpegSegment.write_to ⟨0xE0, List.replicate 65534 0, none⟩ = none ∧
    RiffContent.len (.data (List.replicate (2 ^ 32) 0)) = none :=
  ⟨jpegWrite_overflow _ (by decide)
     (by have h : (⟨0xE0, List.replicate 65534 0, none⟩ : JpegSegment).contents =
           List.replicate 65534 0 := rfl
         rw [h, List.length_replicate]
         omega),
   riffDataLen_overflow _ (by rw [List.length_replicate])⟩

/-- C4 (amended): the overflow of an encoded length over its field's
width is always detected - never silently truncated - but it surfaces as
a panic (`try_into().unwrap()`, modelled by `none`), not as an error
value returned to the immediate caller: `JpegSegment::write_to` panics
when a length-bearing segment's content length + 2 exceeds 65535, and
`RiffContent::len` panics when a `Data` buffer's byte count exceeds the
4-byte field's range. -/
theorem c4_overflow_panics_not_error :
    (∀ s : JpegSegment, markers.has_length s.marker = true →
      65535 < s.contents.length + 2 → JpegSegment.write_to s = none) ∧
    (∀ d : List Nat, 2 ^ 32 ≤ d.length → RiffContent.len (.data d) = none) :=
  ⟨jpegWrite_overflow, riffDataLen_overflow⟩

/-- C4 witness: the amended theorem applied at an APP0 segment with 65534
content bytes and at a data buffer of 2^32 bytes. -/
theorem c4_witness :
    markers.has_length (JpegSegment.marker ⟨0xE0, List.replicate 65534 0, none⟩) = true ∧
    65535 < (JpegSegment.contents ⟨0xE0, List.replicate 65534 0, none⟩).length + 2 ∧
    JpegSegment.write_to ⟨0xE0, List.replicate 65534 0, none⟩ = none ∧
    2 ^ 32 ≤ (List.replicate (2 ^ 32) 0).length ∧
    RiffContent.len (.data (List.replicate (2 ^ 32) 0)) = none :=
  ⟨by decide,
   by have h : (⟨0xE0, List.replicate 65534 0, none⟩ : JpegSegment).contents =
        List.replicate 65534 0 := rfl
      rw [h, List.length_replicate]
      omega,
   c4_overflow_panics_not_error.1 _ (by decide)
     (by have h : (⟨0xE0, List.replicate 65534 0, none⟩ : JpegSegment).contents =
           List.replicate 65534 0 := rfl
         rw [h, List.length_replicate]
         omega),
   by rw [List.length_replicate],
   c4_overflow_panics_not_error.2 _ (by rw [List.length_replicate])⟩

/- ## Claim C3 -/

/-- C3 counterexample: a buffer whose length field (10) claims more bytes
than remain (0) makes `RiffChunk::from_bytes` panic
(`Bytes::split_to` aborts the process when `at > len`; modelled by the
dedicated `panic` outcome), rather than return a truncated-input error -
indeed the only error value `riff.rs` can return is `NoRiffHeader`. -/
theorem c3_counterexample :
    RiffChunk.from_bytes [0x52, 0x49, 0x46, 0x46, 10, 0, 0, 0] = .error .panic ∧
    RiffError.panic ≠ RiffError.noRiffHeader :=
  ⟨rfl, by decide⟩

/-- C3 (amended): both malformed shapes abort with a panic, not an error
value: a chunk length field claiming more bytes than remain in the input
panics (`Bytes::split_to`), and a container whose content ends
mid-subchunk panics while decoding the subchunk (here: a RIFF chunk of
content length 12 holding kind "WEBP" and the 8 bytes "abcd" + length
field 9, whose subchunk claims 9 bytes with 0 remaining). -/
theorem c3_truncation_and_nesting_panic :
    (∀ (l0 l1 l2 l3 : Nat) (rest : List Nat), rest.length < u32le l0 l1 l2 l3 →
      RiffChunk.from_bytes (0x52 :: 0x49 :: 0x46 :: 0x46 :: l0 :: l1 :: l2 :: l3 :: rest) =
        .error .panic) ∧
    RiffChunk.from_bytes [0x52, 0x49, 0x46, 0x46, 12, 0, 0, 0,
      0x57, 0x45, 0x42, 0x50, 0x61, 0x62, 0x63, 0x64, 9, 0, 0, 0] = .error .panic := by
  constructor
  · intro l0 l1 l2 l3 rest hr
    have hstep : chunkStep (fun m => parseMany (2 * m.length + 2) m)
        (0x52 :: 0x49 :: 0x46 :: 0x46 :: l0 :: l1 :: l2 :: l3 :: rest) true =
        .error .panic := by
      simp only [chunkStep]
      rw [if_neg (by rintro ⟨-, hne⟩; exact hne rfl)]
      rw [if_neg (by omega)]
    unfold RiffChunk.from_bytes RiffChunk.from_bytes_impl
    rw [hstep]
  · rfl

/-- C3 witness: the amended theorem's first part applied at length field
10 with an empty remainder. -/
theorem c3_witness :
    ([] : List Nat).length < u32le 10 0 0 0 ∧
    RiffChunk.from_bytes [0x52, 0x49, 0x46, 0x46, 10, 0, 0, 0] = .error .panic :=
  ⟨by decide, c3_truncation_and_nesting_panic.1 10 0 0 0 [] (by decide)⟩

/- ## Claim C8 -/

theorem icc_eq (s : JpegSegment) : JpegSegment.icc s =
    if s.marker = markers.APP2 ∧ 14 ≤ s.contents.length ∧ s.contents.take 12 = iccSig then
      some (s.contents.getD 12 0, s.contents.getD 13 0, s.contents.drop 14)
    else none := by
  unfold JpegSegment.icc
  by_cases hc : s.marker = markers.APP2 ∧ 12 ≤ s.contents.length ∧
      s.contents.take 12 = iccSig
  · rw [if_pos hc]
    obtain ⟨h1, h2, h3⟩ := hc
    by_cases h14 : 14 ≤ s.contents.length
    · have hx : s.contents.get? 12 ≠ none := by
        intro hnone
        rw [List.get?_eq_none] at hnone
        omega
      have hy : s.contents.get? 13 ≠ none := by
        intro hnone
        rw [List.get?_eq_none] at hnone
        omega
      rcases hgx : s.contents.get? 12 with _ | x
      · exact absurd hgx hx
      rcases hgy : s.contents.get? 13 with _ | y
      · exact absurd hgy hy
      simp only []
      rw [if_pos h14, if_pos ⟨h1, h14, h3⟩]
      have hdx : s.contents.getD 12 0 = x := by
        show (s.contents.get? 12).getD 0 = x
        rw [hgx]
        rfl
      have hdy : s.contents.getD 13 0 = y := by
        show (s.contents.get? 13).getD 0 = y
        rw [hgy]
        rfl
      rw [hdx, hdy]
    · have hy : s.contents.get? 13 = none := by
        rw [List.get?_eq_none]
        omega
      rw [if_neg (fun hcc => h14 hcc.2.1), hy]
      rcases s.contents.get? 12 with _ | x <;> rfl
  · rw [if_neg hc,
      if_neg (fun hcc => hc ⟨hcc.1, le_trans (by norm_num) hcc.2.1, hcc.2.2⟩)]

/-- C8: the color-profile query returns `Some((seqno, count, profile))`
exactly when the marker is APP2, the first 12 content bytes are the ICC
signature and the content holds the two fields at offsets 12 and 13
(length at least 14); seqno and count are the bytes at offsets 12 and
13, the profile is everything from offset 14; any mismatch, including
content shorter than 14 bytes, yields `None` (never a panic - the query
is total). In particular `new_icc(2, 3, [0xAA, 0xBB])` queries back as
exactly `(2, 3, [0xAA, 0xBB])`. -/
theorem c8_icc_query :
    (∀ (s : JpegSegment) (a n : Nat) (p : List Nat),
      JpegSegment.icc s = some (a, n, p) ↔
        (s.marker = markers.APP2 ∧ 14 ≤ s.contents.length ∧
         s.contents.take 12 = iccSig ∧ a = s.contents.getD 12 0 ∧
         n = s.contents.getD 13 0 ∧ p = s.contents.drop 14)) ∧
    JpegSegment.icc (JpegSegment.new_icc 2 3 [0xAA, 0xBB]) =
      some (2, 3, [0xAA, 0xBB]) := by
  constructor
  · intro s a n p
    rw [icc_eq]
    by_cases hc : s.marker = markers.APP2 ∧ 14 ≤ s.contents.length ∧
        s.contents.take 12 = iccSig
    · rw [if_pos hc]
      obtain ⟨h1, h2, h3⟩ := hc
      simp only [Option.some.injEq, Prod.mk.injEq]
      constructor
      · rintro ⟨ha, hn, hp⟩
        exact ⟨h1, h2, h3, ha.symm, hn.symm, hp.symm⟩
      · rintro ⟨-, -, -, ha, hn, hp⟩
        exact ⟨ha.symm, hn.symm, hp.symm⟩
    · rw [if_neg hc]
      constructor
      · intro h
        exact absurd h (by simp)
      · rintro ⟨h1, h2, h3, -⟩
        exact absurd ⟨h1, h2, h3⟩ hc
  · decide

/-- C8 witness: the characterisation applied to a freshly constructed
ICC segment with sequence number 7 of 9 and profile `[1, 2, 3]`. -/
theorem c8_witness :
    JpegSegment.icc (JpegSegment.new_icc 7 9 [1, 2, 3]) = some (7, 9, [1, 2, 3]) :=
  (c8_icc_query.1 (JpegSegment.new_icc 7 9 [1, 2, 3]) 7 9 [1, 2, 3]).mpr
    ⟨by decide, by decide, by decide, by decide, by decide, by decide⟩

/- ## Claim C6: helper lemmas -/

theorem chunkStep_wf (recMany : List Nat → Except RiffError (List RiffChunk))
    (hrec : ∀ m subs, recMany m = .ok subs → ∀ c ∈ subs, WFChunk c)
    (b : List Nat) (check : Bool) (c : RiffChunk) (rest : List Nat)
    (h : chunkStep recMany b check = .ok (c, rest)) : WFChunk c := by
  unfold chunkStep at h
  split at h
  · split at h
    · simp only [] at h
      split at h
      · exact absurd h (by simp)
      · split at h
        · split at h
          · split at h
            · split at h
              · split at h
                · exact absurd h (by simp)
                · rename_i subs hsubs
                  simp only [Except.ok.injEq, Prod.mk.injEq] at h
                  obtain ⟨hch, -⟩ := h
                  subst hch
                  refine WFChunk.list _ _ _ (by assumption) ?_ (hrec _ _ hsubs)
                  simp only [Option.isSome_some]
                  simp [*]
              · exact absurd h (by simp)
            · split at h
              · exact absurd h (by simp)
              · rename_i subs hsubs
                simp only [Except.ok.injEq, Prod.mk.injEq] at h
                obtain ⟨hch, -⟩ := h
                subst hch
                refine WFChunk.list _ _ _ (by assumption) ?_ (hrec _ _ hsubs)
                simp only [Option.isSome_none]
                symm
                rw [← Bool.not_eq_true]
                assumption
          · split at h
            · simp only [Except.ok.injEq, Prod.mk.injEq] at h
              obtain ⟨hch, -⟩ := h
              subst hch
              apply WFChunk.data
              rw [← Bool.not_eq_true]
              assumption
            · exact absurd h (by simp)
        · exact absurd h (by simp)
    · simp only [] at h
      split at h <;> exact absurd h (by simp)
  · exact absurd h (by simp)

theorem parseMany_wf : ∀ (fuel : Nat) (m : List Nat) (subs : List RiffChunk),
    parseMany fuel m = .ok subs → ∀ c ∈ subs, WFChunk c
  | 0, m, subs, h => by
    unfold parseMany at h
    exact absurd h (by simp)
  | fuel + 1, m, subs, h => by
    unfold parseMany at h
    split at h
    · simp only [Except.ok.injEq] at h
      subst h
      intro c hc
      simp at hc
    · split at h
      · exact absurd h (by simp)
      · rename_i c0 rest0 hstep
        split at h
        · exact absurd h (by simp)
        · rename_i cs0 hcs
          simp only [Except.ok.injEq] at h
          subst h
          intro c hc
          rcases List.mem_cons.mp hc with hceq | hmem
          · subst hceq
            exact chunkStep_wf _ (fun m' subs' hm' => parseMany_wf fuel m' subs' hm')
              _ _ _ _ hstep
          · exact parseMany_wf fuel rest0 cs0 hcs c hmem

theorem from_bytes_impl_wf (b : List Nat) (check : Bool) (c : RiffChunk)
    (rest : List Nat) (h : RiffChunk.from_bytes_impl b check = .ok (c, rest)) :
    WFChunk c :=
  chunkStep_wf _ (fun m subs hm => parseMany_wf _ m subs hm) b check c rest h

theorem riffContentLen_data_inv (d : List Nat) (cl : Nat)
    (h : RiffContent.len (.data d) = some cl) : cl = d.length ∧ d.length < 2 ^ 32 := by
  unfold RiffContent.len at h
  split at h
  · simp only [Option.some.injEq] at h
    exact ⟨h.symm, by assumption⟩
  · exact absurd h (by simp)

theorem riffContentWrite_data_eq (d : List Nat) :
    RiffContent.write_to (.data d) =
      some (d ++ if d.length % 2 ≠ 0 then [0] else []) := by
  simp only [RiffContent.write_to]

theorem riffContentWrite_list_some_inv (k : FourCC) (subs : List RiffChunk)
    (body : List Nat) (h : RiffContent.write_to (.list (some k) subs) = some body) :
    ∃ parts, riffWriteSubs subs = some parts ∧ body = FourCC.bytes k ++ parts := by
  simp only [RiffContent.write_to] at h
  rcases hp : riffWriteSubs subs with _ | parts <;> rw [hp] at h
  · simp at h
  · simp only [Option.some.injEq] at h
    exact ⟨parts, rfl, h.symm⟩

theorem riffContentWrite_list_none_inv (subs : List RiffChunk) (body : List Nat)
    (h : RiffContent.write_to (.list none subs) = some body) :
    riffWriteSubs subs = some body := by
  simp only [RiffContent.write_to] at h
  rcases hp : riffWriteSubs subs with _ | parts <;> rw [hp] at h
  · simp at h
  · simp only [Option.some.injEq, List.nil_append] at h
    rw [h]

theorem chunkStep_encode (recMany : List Nat → Except RiffError (List RiffChunk))
    (id : FourCC) (ct : RiffContent) (enc rest : List Nat) (check : Bool)
    (hwf : WFChunk ⟨id, ct⟩)
    (henc : RiffChunk.write_to ⟨id, ct⟩ = some enc)
    (hcheck : check = true → id = riffId)
    (hrec : ∀ (kind : Option FourCC) (subs : List RiffChunk) (parts : List Nat),
      ct = .list kind subs → riffWriteSubs subs = some parts →
      recMany parts = .ok subs) :
    chunkStep recMany (enc ++ rest) check = .ok (⟨id, ct⟩, rest) := by
  obtain ⟨cl, body, hcl, hbody, henceq⟩ := riffChunk_write_unfold id ct enc henc
  subst henceq
  have hclt : cl < 2 ^ 32 := riffContentLen_lt ct cl hcl
  obtain ⟨body2, hbody2, hblen, hbpar⟩ := riffContent_write_len ct cl hcl
  rw [hbody] at hbody2
  replace hbody2 := Option.some.inj hbody2
  subst hbody2
  have hshape : (FourCC.bytes id ++ u32leBytes cl ++ body) ++ rest =
      id.b0 :: id.b1 :: id.b2 :: id.b3 :: (cl % 256) :: (cl / 256 % 256) ::
      (cl / 65536 % 256) :: (cl / 16777216 % 256) :: (body ++ rest) := by
    simp [FourCC.bytes, u32leBytes]
  rw [hshape]
  simp only [chunkStep]
  rw [show (⟨id.b0, id.b1, id.b2, id.b3⟩ : FourCC) = id from rfl]
  rw [u32le_of_bytes cl hclt]
  rw [if_neg (fun hx => hx.2 (hcheck hx.1))]
  rw [if_pos (show cl ≤ (body ++ rest).length by rw [List.length_append, hblen]; omega)]
  cases hwf with
  | data _ d hsub =>
    obtain ⟨hcld, hdlt⟩ := riffContentLen_data_inv d cl hcl
    subst hcld
    have hb : body = d ++ (if d.length % 2 ≠ 0 then [0] else []) := by
      rw [riffContentWrite_data_eq] at hbody
      exact (Option.some.inj hbody).symm
    subst hb
    rw [if_neg (show ¬has_subchunks id = true by rw [hsub]; simp)]
    rw [List.append_assoc, List.take_left, List.drop_left]
    by_cases hpar : d.length % 2 = 0
    · rw [hpar]
      simp
    · have hpar1 : d.length % 2 = 1 := by omega
      rw [hpar1]
      simp
  | list _ kind subs hsubT hkindEq hwfsubs =>
    rw [if_pos hsubT]
    have hpad0 : riffPad (.list kind subs) = 0 := rfl
    rw [hpad0] at hblen
    rcases kind with _ | k
    · have hk : has_kind id = false := by simpa using hkindEq.symm
      rw [if_neg (show ¬has_kind id = true by rw [hk]; simp)]
      have hparts := riffContentWrite_list_none_inv subs body hbody
      have hcleq : body.length = cl := by omega
      rw [← hcleq, List.take_left, List.drop_left]
      rw [hrec none subs body rfl hparts]
    · have hk : has_kind id = true := by simpa using hkindEq.symm
      rw [if_pos hk]
      obtain ⟨parts, hparts, hbodyeq⟩ := riffContentWrite_list_some_inv k subs body hbody
      subst hbodyeq
      have hlen4 : (FourCC.bytes k ++ parts).length = cl := by omega
      rw [← hlen4, List.take_left, List.drop_left]
      simp only [FourCC.bytes, List.cons_append, List.nil_append]
      rw [hrec (some k) subs parts rfl hparts]

theorem riffWriteSubs_cons_inv (c : RiffChunk) (cs : List RiffChunk) (parts : List Nat)
    (h : riffWriteSubs (c :: cs) = some parts) :
    ∃ e es, RiffChunk.write_to c = some e ∧ riffWriteSubs cs = some es ∧
      parts = e ++ es := by
  unfold riffWriteSubs at h
  rcases he : RiffChunk.write_to c with _ | e <;> rw [he] at h
  · simp at h
  · rcases hes : riffWriteSubs cs with _ | es <;> rw [hes] at h
    · simp at h
    · simp only [Option.some.injEq] at h
      exact ⟨e, es, rfl, rfl, h.symm⟩

theorem parseMany_encode : ∀ (fuel : Nat) (cs : List RiffChunk) (parts : List Nat),
    (∀ c ∈ cs, WFChunk c) → riffWriteSubs cs = some parts →
    2 * parts.length + 2 ≤ fuel → parseMany fuel parts = .ok cs
  | 0, cs, parts, hwf, hw, hfuel => by omega
  | fuel + 1, cs, parts, hwf, hw, hfuel => by
    rcases cs with _ | ⟨c, cs'⟩
    · unfold riffWriteSubs at hw
      simp only [Option.some.injEq] at hw
      subst hw
      unfold parseMany
      rw [if_pos rfl]
    · obtain ⟨e, es, he, hes, hpeq⟩ := riffWriteSubs_cons_inv c cs' parts hw
      subst hpeq
      have hge8 : 8 ≤ e.length := riffChunk_write_ge c e he
      have hlapp : (e ++ es).length = e.length + es.length := List.length_append e es
      have hwfc : WFChunk c := hwf c (List.mem_cons_self c cs')
      have hwfcs : ∀ x ∈ cs', WFChunk x := fun x hx => hwf x (List.mem_cons_of_mem c hx)
      obtain ⟨id, ct⟩ := c
      have hrecInner : ∀ (kind : Option FourCC) (subs : List RiffChunk)
          (parts' : List Nat), ct = .list kind subs →
          riffWriteSubs subs = some parts' → parseMany fuel parts' = .ok subs := by
        intro kind subs parts' hcteq hwparts
        subst hcteq
        obtain ⟨cl, body, hcl, hbody, heeq⟩ := riffChunk_write_unfold id _ e he
        have hwfsubs : ∀ x ∈ subs, WFChunk x := by
          cases hwfc with
          | list _ _ _ _ _ hs => exact hs
        have hbl : parts'.length ≤ body.length := by
          rcases kind with _ | k
          · have h2 := riffContentWrite_list_none_inv subs body hbody
            rw [hwparts] at h2
            rw [Option.some.inj h2]
          · obtain ⟨parts2, hp2, hbeq⟩ := riffContentWrite_list_some_inv k subs body hbody
            rw [hwparts] at hp2
            replace hp2 := Option.some.inj hp2
            subst hp2
            subst hbeq
            simp [FourCC.bytes]
            omega
        have hel : body.length + 8 = e.length := by
          subst heeq
          simp [FourCC.bytes, u32leBytes]
        apply parseMany_encode fuel subs parts' hwfsubs hwparts
        omega
      unfold parseMany
      rw [if_neg (by
        intro hnil
        rw [List.append_eq_nil] at hnil
        rw [hnil.1] at hge8
        simp at hge8)]
      rw [chunkStep_encode (parseMany fuel) id ct e es false hwfc he
        (by simp) hrecInner]
      simp only []
      rw [parseMany_encode fuel cs' es hwfcs hes (by omega)]

theorem riff_encode_decode (id : FourCC) (ct : RiffContent) (enc rest : List Nat)
    (check : Bool) (hwf : WFChunk ⟨id, ct⟩)
    (henc : RiffChunk.write_to ⟨id, ct⟩ = some enc)
    (hcheck : check = true → id = riffId) :
    RiffChunk.from_bytes_impl (enc ++ rest) check = .ok (⟨id, ct⟩, rest) := by
  unfold RiffChunk.from_bytes_impl
  refine chunkStep_encode _ id ct enc rest check hwf henc hcheck ?_
  intro kind subs parts hct hw
  subst hct
  have hs : ∀ x ∈ subs, WFChunk x := by
    cases hwf with
    | list _ _ _ _ _ hs => exact hs
  exact parseMany_encode _ subs parts hs hw (Nat.le_refl _)

theorem riff_encode_decode_root (c : RiffChunk) (enc : List Nat)
    (hwf : WFChunk c) (hid : c.id = riffId)
    (henc : RiffChunk.write_to c = some enc) :
    RiffChunk.from_bytes enc = .ok c := by
  obtain ⟨id, ct⟩ := c
  have h2 := riff_encode_decode id ct enc [] true hwf henc (fun _ => hid)
  rw [List.append_nil] at h2
  unfold RiffChunk.from_bytes
  rw [h2]

theorem jpeg_decode_encode (s : JpegSegment) (enc : List Nat)
    (hl : markers.has_length s.marker = true)
    (hent : s.entropy.isSome = markers.has_entropy s.marker)
    (henc : JpegSegment.write_to s = some enc) :
    JpegSegment.read s.marker (enc.drop 2) = .ok (s, []) := by
  obtain ⟨m, cont, ent⟩ := s
  unfold JpegSegment.write_to at henc
  simp only [] at henc
  have hlen : JpegSegment.len ⟨m, cont, ent⟩ = 2 + 2 + cont.length := by
    unfold JpegSegment.len
    rw [if_pos hl]
  rw [hlen] at henc
  split at henc
  · rename_i hle
    simp only [Option.some.injEq] at henc
    subst henc
    simp only [List.cons_append, List.nil_append, List.append_assoc,
      List.drop_succ_cons, List.drop_zero]
    simp only [JpegSegment.read]
    rw [show (2 + 2 + cont.length - 2) / 256 * 256 + (2 + 2 + cont.length - 2) % 256 =
      2 + cont.length from by omega]
    rw [if_neg (by omega)]
    rw [show 2 + cont.length - 2 = cont.length from by omega]
    rcases ent with _ | e0
    · have hem : markers.has_entropy m = false := by rw [← hent]; rfl
      simp [hem, JpegSegment.new_with_contents, List.take_left, List.drop_left]
    · have hem : markers.has_entropy m = true := by rw [← hent]; rfl
      simp [hem, JpegSegment.new_with_entropy, Entropy.read, Entropy.write_to,
        List.take_left, List.drop_left]
  · exact absurd henc (by simp)

theorem jpeg_encode_decode (m b0 b1 : Nat) (rest : List Nat)
    (hb0 : b0 < 256) (hb1 : b1 < 256) (hfield : 2 ≤ b0 * 256 + b1)
    (havail : b0 * 256 + b1 - 2 ≤ rest.length)
    (hl : markers.has_length m = true) :
    (markers.has_entropy m = false →
      JpegSegment.read m (b0 :: b1 :: rest) =
        .ok (⟨m, rest.take (b0 * 256 + b1 - 2), none⟩,
             rest.drop (b0 * 256 + b1 - 2)) ∧
      JpegSegment.write_to ⟨m, rest.take (b0 * 256 + b1 - 2), none⟩ =
        some ([markers.P, m, b0, b1] ++ rest.take (b0 * 256 + b1 - 2))) ∧
    (markers.has_entropy m = true →
      JpegSegment.read m (b0 :: b1 :: rest) =
        .ok (⟨m, rest.take (b0 * 256 + b1 - 2),
              some ⟨rest.drop (b0 * 256 + b1 - 2)⟩⟩, []) ∧
      JpegSegment.write_to ⟨m, rest.take (b0 * 256 + b1 - 2),
          some ⟨rest.drop (b0 * 256 + b1 - 2)⟩⟩ =
        some ([markers.P, m, b0, b1] ++ rest)) := by
  have htlen : (rest.take (b0 * 256 + b1 - 2)).length = b0 * 256 + b1 - 2 := by
    rw [List.length_take]
    omega
  have hwlen : ∀ ent : Option Entropy,
      JpegSegment.len ⟨m, rest.take (b0 * 256 + b1 - 2), ent⟩ =
        2 + 2 + (b0 * 256 + b1 - 2) := by
    intro ent
    unfold JpegSegment.len
    rw [if_pos hl]
    simp only []
    rw [htlen]
  have hfle : b0 * 256 + b1 ≤ 65535 := by omega
  have hdiv : (2 + 2 + (b0 * 256 + b1 - 2) - 2) / 256 = b0 := by omega
  have hmod : (2 + 2 + (b0 * 256 + b1 - 2) - 2) % 256 = b1 := by omega
  constructor
  · intro hem
    constructor
    · simp only [JpegSegment.read]
      rw [if_neg (by omega)]
      simp [hem, JpegSegment.new_with_contents]
    · unfold JpegSegment.write_to
      simp only []
      rw [hwlen none]
      rw [if_pos (by omega)]
      rw [hdiv, hmod]
      simp
  · intro hem
    constructor
    · simp only [JpegSegment.read]
      rw [if_neg (by omega)]
      simp [hem, JpegSegment.new_with_entropy, Entropy.read]
    · unfold JpegSegment.write_to
      simp only []
      rw [hwlen (some ⟨rest.drop (b0 * 256 + b1 - 2)⟩)]
      rw [if_pos (by omega)]
      rw [hdiv, hmod]
      simp only [Entropy.write_to, List.cons_append, List.nil_append,
        List.append_assoc, List.take_append_drop]

/- ## Claim C6 -/

/-- C6 counterexample: the segment round trip fails for the
no-length-field marker EOI: the segment with contents `[0, 0]` is a
valid decode (of the body `[0, 4, 0, 0]`), but re-encoding writes the
length field `2` (not 4) so decoding the encoded bytes yields the
different segment with empty contents; byte-reproduction fails on the
same buffers. On the RIFF side, a buffer whose odd data chunk carries a
nonzero pad byte decodes fine but re-encodes with a 0x00 pad, so
`encode(decode(b))` is not `b` byte-for-byte for that syntactically
decodable buffer. -/
theorem c6_counterexample :
    JpegSegment.read 0xD9 [0, 4, 0, 0] = .ok (⟨0xD9, [0, 0], none⟩, []) ∧
    JpegSegment.write_to ⟨0xD9, [0, 0], none⟩ = some [255, 217, 0, 2, 0, 0] ∧
    JpegSegment.read 0xD9 [0, 2, 0, 0] = .ok (⟨0xD9, [], none⟩, [0, 0]) ∧
    (⟨0xD9, [], none⟩ : JpegSegment) ≠ ⟨0xD9, [0, 0], none⟩ ∧
    JpegSegment.write_to ⟨0xD9, [], none⟩ = some [255, 217, 0, 0] ∧
    RiffChunk.from_bytes [82, 73, 70, 70, 14, 0, 0, 0, 87, 69, 66, 80,
        97, 98, 99, 100, 1, 0, 0, 0, 7, 1] =
      .ok ⟨⟨82, 73, 70, 70⟩, .list (some ⟨87, 69, 66, 80⟩)
        [⟨⟨97, 98, 99, 100⟩, .data [7]⟩]⟩ ∧
    RiffChunk.write_to ⟨⟨82, 73, 70, 70⟩, .list (some ⟨87, 69, 66, 80⟩)
        [⟨⟨97, 98, 99, 100⟩, .data [7]⟩]⟩ =
      some [82, 73, 70, 70, 14, 0, 0, 0, 87, 69, 66, 80,
        97, 98, 99, 100, 1, 0, 0, 0, 7, 0] ∧
    ([82, 73, 70, 70, 14, 0, 0, 0, 87, 69, 66, 80,
        97, 98, 99, 100, 1, 0, 0, 0, 7, 0] : List Nat) ≠
      [82, 73, 70, 70, 14, 0, 0, 0, 87, 69, 66, 80,
        97, 98, 99, 100, 1, 0, 0, 0, 7, 1] := by
  refine ⟨rfl, by decide, rfl, by decide, by decide, rfl, ?_, by decide⟩
  simp [RiffChunk.write_to, RiffContent.write_to, RiffContent.len,
    riffWriteSubs, riffSumLens, RiffChunk.len, FourCC.bytes, u32leBytes]

/-- C6 (amended): the round trip holds in the following corrected form.
RIFF side: every chunk decoded by `from_bytes_impl` is
classification-consistent (`WFChunk`); encoding any such chunk and
re-decoding (with a root check only when the id is "RIFF") returns
exactly that chunk with any byte suffix preserved - hence
`decode(encode(x)) = x` for every decoded chunk and
`encode(decode(b)) = b` byte-for-byte for every buffer the encoder
produces (a decodable buffer with a nonzero pad byte is not
reproduced). JPEG side: both directions hold exactly for markers
classified as requiring a length field with entropy presence matching
the marker's classification; for other markers they fail since
`write_to` writes a length field unconditionally. -/
theorem c6_roundtrip_corrected :
    (∀ (b : List Nat) (check : Bool) (c : RiffChunk) (rest : List Nat),
      RiffChunk.from_bytes_impl b check = .ok (c, rest) → WFChunk c) ∧
    (∀ (id : FourCC) (ct : RiffContent) (enc rest : List Nat) (check : Bool),
      WFChunk ⟨id, ct⟩ → RiffChunk.write_to ⟨id, ct⟩ = some enc →
      (check = true → id = riffId) →
      RiffChunk.from_bytes_impl (enc ++ rest) check = .ok (⟨id, ct⟩, rest)) ∧
    (∀ (c : RiffChunk) (enc : List Nat), WFChunk c → RiffChunk.id c = riffId →
      RiffChunk.write_to c = some enc → RiffChunk.from_bytes enc = .ok c) ∧
    (∀ (s : JpegSegment) (enc : List Nat), markers.has_length s.marker = true →
      s.entropy.isSome = markers.has_entropy s.marker →
      JpegSegment.write_to s = some enc →
      JpegSegment.read s.marker (enc.drop 2) = .ok (s, [])) ∧
    (∀ (m b0 b1 : Nat) (rest : List Nat), b0 < 256 → b1 < 256 →
      2 ≤ b0 * 256 + b1 → b0 * 256 + b1 - 2 ≤ rest.length →
      markers.has_length m = true →
      (markers.has_entropy m = false →
        JpegSegment.read m (b0 :: b1 :: rest) =
          .ok (⟨m, rest.take (b0 * 256 + b1 - 2), none⟩,
               rest.drop (b0 * 256 + b1 - 2)) ∧
        JpegSegment.write_to ⟨m, rest.take (b0 * 256 + b1 - 2), none⟩ =
          some ([markers.P, m, b0, b1] ++ rest.take (b0 * 256 + b1 - 2))) ∧
      (markers.has_entropy m = true →
        JpegSegment.read m (b0 :: b1 :: rest) =
          .ok (⟨m, rest.take (b0 * 256 + b1 - 2),
                some ⟨rest.drop (b0 * 256 + b1 - 2)⟩⟩, []) ∧
        JpegSegment.write_to ⟨m, rest.take (b0 * 256 + b1 - 2),
            some ⟨rest.drop (b0 * 256 + b1 - 2)⟩⟩ =
          some ([markers.P, m, b0, b1] ++ rest))) :=
  ⟨from_bytes_impl_wf, riff_encode_decode, riff_encode_decode_root,
   jpeg_decode_encode, jpeg_encode_decode⟩

/-- C6 witness: the amended round trip applied to the 12-byte RIFF/WEBP
buffer (which decodes to a well-formed chunk and re-encodes to itself),
to the APP0 segment with contents `[7]`, and to the buffer
`[0, 3, 9]` under marker SOF0. -/
theorem c6_witness :
    WFChunk ⟨⟨82, 73, 70, 70⟩, .list (some ⟨87, 69, 66, 80⟩) []⟩ ∧
    RiffChunk.from_bytes [82, 73, 70, 70, 4, 0, 0, 0, 87, 69, 66, 80] =
      .ok ⟨⟨82, 73, 70, 70⟩, .list (some ⟨87, 69, 66, 80⟩) []⟩ ∧
    JpegSegment.read 0xE0 (([0xFF, 0xE0, 0, 3, 7] : List Nat).drop 2) =
      .ok (⟨0xE0, [7], none⟩, []) ∧
    JpegSegment.read 0xC0 [0, 3, 9] =
      .ok (⟨0xC0, [9].take (0 * 256 + 3 - 2), none⟩, [9].drop (0 * 256 + 3 - 2)) := by
  have hwf : WFChunk ⟨⟨82, 73, 70, 70⟩, .list (some ⟨87, 69, 66, 80⟩) []⟩ :=
    c6_roundtrip_corrected.1 [82, 73, 70, 70, 4, 0, 0, 0, 87, 69, 66, 80] true
      _ [] rfl
  have hwr : RiffChunk.write_to
      ⟨⟨82, 73, 70, 70⟩, .list (some ⟨87, 69, 66, 80⟩) []⟩ =
      some [82, 73, 70, 70, 4, 0, 0, 0, 87, 69, 66, 80] := by
    simp [RiffChunk.write_to, RiffContent.write_to, RiffContent.len,
      riffWriteSubs, riffSumLens, FourCC.bytes, u32leBytes]
  refine ⟨hwf, c6_roundtrip_corrected.2.2.1 _ _ hwf rfl hwr, ?_, ?_⟩
  · exact c6_roundtrip_corrected.2.2.2.1 ⟨0xE0, [7], none⟩ [0xFF, 0xE0, 0, 3, 7]
      (by decide) (by decide) (by decide)
  · exact ((c6_roundtrip_corrected.2.2.2.2 0xC0 0 3 [9] (by decide) (by decide)
      (by decide) (by decide) (by decide)).1 (by decide)).1
